import Mathlib

/-!
Shallow embedding of `torch/_inductor/codegen/multi_kernel.py`: the
multi-kernel variant-selection and dispatch engine.  Pure helper functions
(`get_kernel_argdefs`, `get_all_kernel_argdefs`, `get_numel_argdefs`) are
translated to Lean functions on a `Kernel` record of the metadata the code
reads.  The stateful parts (`MultiKernelState.define_kernel`,
`MultiKernel.__init__`, `MultiKernelCall.__init__`,
`MultiKernelCall.run_with_argless_kernels`) are translated to explicit
state-passing functions; Python exceptions (assert failures, IndexError,
ValueError from `min([])`, exceptions raised inside `do_bench`) become
`Except` results.  External collaborators are modeled as parameters: the
benchmarking primitive `do_bench` is an oracle argument, and the wrapper
header (`V.graph.wrapper_code.header`) is modeled as the list of glue
blocks spliced into it, each glue block recording the structured content of
the generated source text.
-/

/-- One entry of `kernel.range_trees`: the code only reads `tree.prefix`
(renamed `prefixStr` because `prefix` is a Lean keyword). -/
structure RangeTree where
  prefixStr : String
deriving DecidableEq, Repr

/-- The metadata of a sub-kernel that `multi_kernel.py` reads: its
`kernel_name`, the `arg_defs` component of `kernel.args.python_argdefs()`,
its `range_trees`, its `inside_reduction` flag, and its
`get_call_args()` result. -/
structure Kernel where
  kernel_name : String
  python_argdefs : List String
  range_trees : List RangeTree
  inside_reduction : Bool
  call_args : List String
deriving DecidableEq, Repr

/-- `get_kernel_argdefs(kernel)`: the `arg_defs` returned by
`kernel.args.python_argdefs()`. -/
def get_kernel_argdefs (kernel : Kernel) : List String :=
  kernel.python_argdefs

/-- One step of building the insertion-ordered dict: Python's
`dict.update` with a fresh key appends it, with an existing key it keeps
the original position (values are all `None`, so nothing else changes). -/
def insertOnce (acc : List String) (x : String) : List String :=
  if x ∈ acc then acc else acc ++ [x]

/-- The ordered deduplicated union underlying both
`get_all_kernel_argdefs` and the call-args union in
`MultiKernel.call_kernel`: fold every argument list, in order, into an
insertion-ordered dict. -/
def orderedUnion (argdefs_list : List (List String)) : List String :=
  argdefs_list.foldl (fun acc argdefs => argdefs.foldl insertOnce acc) []

/-- `get_all_kernel_argdefs(kernels)`: insertion-ordered union of the
sub-kernels' argdefs. -/
def get_all_kernel_argdefs (kernels : List Kernel) : List String :=
  orderedUnion (kernels.map get_kernel_argdefs)

/-- `get_numel_argdefs(kernel)`: for each range tree, in order, append
`f"{tree.prefix}numel"` unless the tree is a reduction tree (`prefix ==
"r"`) and the kernel is not `inside_reduction`. -/
def get_numel_argdefs (kernel : Kernel) : List String :=
  kernel.range_trees.foldl
    (fun numel_argdefs tree =>
      if tree.prefixStr ≠ "r" ∨ kernel.inside_reduction then
        numel_argdefs ++ [tree.prefixStr ++ "numel"]
      else
        numel_argdefs)
    []

/-- Specification-style recursion keeping the first occurrence of each
name; used to state that `orderedUnion` is order-preserving by first
occurrence. -/
def keepFirst : List String → List String
  | [] => []
  | x :: xs => x :: keepFirst (xs.filter (fun y => y ≠ x))
termination_by l => l.length
decreasing_by
  simp only [List.length_cons]
  exact Nat.lt_succ_of_le (List.length_filter_le _ _)

/-- The argument union computed inside `MultiKernel.call_kernel`: the
insertion-ordered deduplicated union of the sub-kernels'
`get_call_args()` results (the rest of `call_kernel` — appending numels
and the grid and emitting the call — goes through external collaborators
`add_numel_to_call_args_and_grid` and `generate_kernel_call`). -/
def all_call_args (kernels : List Kernel) : List String :=
  orderedUnion (kernels.map Kernel.call_args)

/-- One zero-argument closure in the generated glue source:
`def callI(): multi_kernel_call.kernels[I].run(<argdefs_I>, <numel_I>,
grid=grid, stream=stream)`. -/
structure GlueClosure where
  kernel_index : Nat
  run_args : List String
  run_numels : List String
deriving DecidableEq, Repr

/-- The structured content of the three `wrapper.header.splice` calls made
for one fresh registration: the `MultiKernelCall` binding plus the
generated `run` entry point source. `dispatched` records the ordered list
of closures passed to `run_with_argless_kernels` (in the source,
`[call0, call1]`). -/
structure GlueBlock where
  multi_kernel_name : String
  kernel_names : List String
  signature_args : List String
  signature_numels : List String
  closures : List GlueClosure
  dispatched : List Nat
deriving DecidableEq, Repr

/-- `MultiKernelState.__init__`: the deduplicating registry (keyed by the
tuple of sub-kernel names), the `used_names` sanity-check set, and our
model of the wrapper header it splices glue into. -/
structure MultiKernelState where
  subkernel_to_kernel_name : List (List String × String)
  used_names : List String
  header : List GlueBlock
deriving DecidableEq, Repr

/-- A fresh `MultiKernelState()`. -/
def MultiKernelState.init : MultiKernelState :=
  { subkernel_to_kernel_name := [], used_names := [], header := [] }

/-- Exceptions `define_kernel` can raise: the `assert multi_kernel_name
not in self.used_names` failure, and the `IndexError` from
`kernel_names[0]` / `kernels[1]` on groups that are too small. -/
inductive DefineErr where
  | assertFail : DefineErr
  | indexErr : DefineErr
deriving DecidableEq, Repr

/-- The generated `run` glue for `kernels`: signature takes the union of
all argdefs and the numel argdefs of `kernels[0]`; the body hardcodes two
closures, `call0` over `kernels[0]` and `call1` over `kernels[1]`, and
passes `[call0, call1]` to `run_with_argless_kernels`.  Accessing
`kernels[1]` on a shorter list is an `IndexError`. -/
def build_src_code (name : String) (kernels : List Kernel) :
    Option GlueBlock :=
  match kernels with
  | k0 :: k1 :: _ =>
    some
      { multi_kernel_name := name
        kernel_names := kernels.map Kernel.kernel_name
        signature_args := get_all_kernel_argdefs kernels
        signature_numels := get_numel_argdefs k0
        closures :=
          [ { kernel_index := 0
              run_args := get_kernel_argdefs k0
              run_numels := get_numel_argdefs k0 }
          , { kernel_index := 1
              run_args := get_kernel_argdefs k1
              run_numels := get_numel_argdefs k1 } ]
        dispatched := [0, 1] }
  | _ => none

/-- `MultiKernelState.define_kernel(kernels)`.  Faithful to the Python
statement order: the early dedup return; then the name synthesis from
`kernel_names[0]` (IndexError on an empty list); the collision assert;
recording the name in `used_names` and the registry; and only then the
construction of the glue source (which touches `kernels[1]`, so a
one-element group raises after the registry was already mutated) and its
splice into the wrapper header. -/
def MultiKernelState.define_kernel (st : MultiKernelState)
    (kernels : List Kernel) : MultiKernelState × Except DefineErr String :=
  let kernel_names := kernels.map Kernel.kernel_name
  match st.subkernel_to_kernel_name.lookup kernel_names with
  | some name => (st, Except.ok name)
  | none =>
    match kernel_names with
    | [] => (st, Except.error DefineErr.indexErr)
    | first :: _ =>
      let multi_kernel_name := "multi_kernel_" ++ first
      if multi_kernel_name ∈ st.used_names then
        (st, Except.error DefineErr.assertFail)
      else
        let st1 : MultiKernelState :=
          { st with
            used_names := st.used_names ++ [multi_kernel_name]
            subkernel_to_kernel_name :=
              st.subkernel_to_kernel_name ++ [(kernel_names, multi_kernel_name)] }
        match build_src_code multi_kernel_name kernels with
        | none => (st1, Except.error DefineErr.indexErr)
        | some glue =>
          ({ st1 with header := st1.header ++ [glue] },
            Except.ok multi_kernel_name)

/-- Folding `define_kernel` over a sequence of kernel groups, collecting
each call's outcome. -/
def define_kernel_seq (st : MultiKernelState) :
    List (List Kernel) → MultiKernelState × List (Except DefineErr String)
  | [] => (st, [])
  | kernels :: rest =>
    let r := st.define_kernel kernels
    let rs := define_kernel_seq r.1 rest
    (rs.1, r.2 :: rs.2)

/-- Exception `MultiKernel.__init__` / `MultiKernelCall.__init__` can
raise: the `assert len(kernels) >= 2` failure, or, for `MultiKernel`, an
exception propagated out of `define_kernel`. -/
inductive InitErr where
  | sizeAssert : InitErr
  | defineFail : DefineErr → InitErr
deriving DecidableEq, Repr

/-- The compile-time `MultiKernel` object: its sub-kernels and the
dispatcher name obtained from the registry. -/
structure MultiKernel where
  kernels : List Kernel
  kernel_name : String
deriving DecidableEq, Repr

/-- `MultiKernel.__init__(kernels)`: assert the group has at least two
sub-kernels, then register with the wrapper's `MultiKernelState` and
store the resulting dispatcher name. -/
def MultiKernel.init (st : MultiKernelState) (kernels : List Kernel) :
    MultiKernelState × Except InitErr MultiKernel :=
  if 2 ≤ kernels.length then
    match st.define_kernel kernels with
    | (st1, Except.ok name) => (st1, Except.ok ⟨kernels, name⟩)
    | (st1, Except.error e) => (st1, Except.error (InitErr.defineFail e))
  else
    (st, Except.error InitErr.sizeAssert)

/-- The run-time `MultiKernelCall` state over an abstract type `K` of
(possibly still-compiling) kernel objects: the stored sub-kernels and the
`picked_kernel` selection index (`None` before the first dispatch).
Loading `src_code` via `PyCodeCache` and the future-resolving `kernels`
property are external collaborators and are not modeled. -/
structure MultiKernelCall (K : Type) where
  kernels : List K
  picked_kernel : Option Nat
deriving DecidableEq, Repr

/-- `MultiKernelCall.__init__(kernels, src_code)`: assert the group has at
least two kernels and start with `picked_kernel = None`; `none` models the
assertion failure. -/
def MultiKernelCall.init {K : Type} (kernels : List K) :
    Option (MultiKernelCall K) :=
  if 2 ≤ kernels.length then
    some { kernels := kernels, picked_kernel := none }
  else
    none

/-- Python's `min(timings)` on a nonempty list `t :: ts`, as the left fold
of binary `min` (Python keeps the current value on ties, which for a total
order is the same value). -/
def listMin (t : Int) : List Int → Int
  | [] => t
  | y :: ys => listMin (min t y) ys

/-- Python's `timings.index(m)`: the index of the first occurrence of `m`
(the source only calls it with `m` present; an absent value yields the
list length here where Python would raise). -/
def listIndex (m : Int) : List Int → Nat
  | [] => 0
  | y :: ys => if y = m then 0 else listIndex m ys + 1

/-- `timings.index(min(timings))` on a nonempty timing list: the stable
argmin the source stores into `picked_kernel` (0 for the empty list,
which the source never reaches on this path). -/
def pickMinIdx : List Int → Nat
  | [] => 0
  | t :: ts => listIndex (listMin t ts) (t :: ts)

/-- Exceptions `run_with_argless_kernels` can propagate: an exception of
type `E` raised inside a benchmarked candidate call (through `do_bench`),
the `ValueError` of `min([])` on an empty candidate list, and the
`IndexError` of `kernel_calls[picked_kernel]` when the stored index is out
of range for the supplied list. -/
inductive RunError (E : Type) where
  | benchFail : E → RunError E
  | emptyCalls : RunError E
  | badIndex : RunError E
deriving DecidableEq, Repr

/-- The benchmarking loop `[do_bench(kernel_call, rep=40,
fast_flush=True) for kernel_call in kernel_calls]`: invoke the `do_bench`
oracle on each call left to right, counting invocations, and propagate the
first exception (later calls are then never benchmarked, as in a Python
list comprehension). -/
def bench_all {C E : Type} (do_bench : C → Nat → Bool → Except E Int) :
    List C → Nat × Except E (List Int)
  | [] => (0, Except.ok [])
  | c :: cs =>
    match do_bench c 40 true with
    | Except.error e => (1, Except.error e)
    | Except.ok t =>
      let r := bench_all do_bench cs
      (r.1 + 1, r.2.map (fun ts => t :: ts))

/-- `MultiKernelCall.run_with_argless_kernels(kernel_calls)`.  `do_bench`
is the external timing primitive, modeled as an oracle from a call, the
`rep` count and the `fast_flush` flag to a duration (or an exception).
Returns the state after the call, the number of `do_bench` invocations it
performed, and either the candidate call it ends by invoking or the
exception it propagates.  While `picked_kernel` is unset: benchmark every
call, set `picked_kernel = timings.index(min(timings))`, and invoke the
call at that index; once set: invoke `kernel_calls[picked_kernel]` with no
benchmarking. -/
def run_with_argless_kernels {C E K : Type}
    (do_bench : C → Nat → Bool → Except E Int) (st : MultiKernelCall K)
    (kernel_calls : List C) :
    MultiKernelCall K × Nat × Except (RunError E) C :=
  match st.picked_kernel with
  | some idx =>
    match kernel_calls.get? idx with
    | some c => (st, 0, Except.ok c)
    | none => (st, 0, Except.error RunError.badIndex)
  | none =>
    let br := bench_all do_bench kernel_calls
    match br.2 with
    | Except.error e => (st, br.1, Except.error (RunError.benchFail e))
    | Except.ok timings =>
      match timings with
      | [] => (st, br.1, Except.error RunError.emptyCalls)
      | t :: ts =>
        let idx := pickMinIdx (t :: ts)
        let st1 : MultiKernelCall K := { st with picked_kernel := some idx }
        match kernel_calls.get? idx with
        | some c => (st1, br.1, Except.ok c)
        | none => (st1, br.1, Except.error RunError.badIndex)

/-- A sequence of `run_with_argless_kernels` invocations on one instance,
threading the state and summing the `do_bench` invocation counts. -/
def run_seq {C E K : Type} (do_bench : C → Nat → Bool → Except E Int)
    (st : MultiKernelCall K) :
    List (List C) → MultiKernelCall K × Nat × List (Except (RunError E) C)
  | [] => (st, 0, [])
  | kernel_calls :: rest =>
    let r := run_with_argless_kernels do_bench st kernel_calls
    let rs := run_seq do_bench r.1 rest
    (rs.1, r.2.1 + rs.2.1, r.2.2 :: rs.2.2)

/-- Invariant tying the registry's `used_names` to its key table: every
used name is the `multi_kernel_` name of the head kernel of some
already-registered group, and that group's key is present in the
table. -/
def RegistryInv (st : MultiKernelState) (processed : List (List Kernel)) :
    Prop :=
  ∀ n ∈ st.used_names, ∃ g ∈ processed, ∃ h tl,
    g.map Kernel.kernel_name = h :: tl ∧
    n = "multi_kernel_" ++ h ∧
    (g.map Kernel.kernel_name, n) ∈ st.subkernel_to_kernel_name

/-- Sample sub-kernels used to evaluate the model at concrete inputs. -/
def kEx1 : Kernel :=
  { kernel_name := "k1"
    python_argdefs := ["a", "b"]
    range_trees := [{ prefixStr := "x" }, { prefixStr := "r" }]
    inside_reduction := false
    call_args := ["pa", "pb"] }

/-- Second sample sub-kernel. -/
def kEx2 : Kernel :=
  { kernel_name := "k2"
    python_argdefs := ["b", "c"]
    range_trees := [{ prefixStr := "x" }, { prefixStr := "r" }]
    inside_reduction := false
    call_args := ["pb", "pc"] }

/-- Third sample sub-kernel. -/
def kEx3 : Kernel :=
  { kernel_name := "k3"
    python_argdefs := ["c"]
    range_trees := [{ prefixStr := "x" }]
    inside_reduction := false
    call_args := ["pc"] }

/-! ## Lemmas about the insertion-ordered union -/

lemma mem_insertOnce_of_mem {acc : List String} {x : String} (y : String)
    (h : x ∈ acc) : x ∈ insertOnce acc y := by
  unfold insertOnce
  split
  · exact h
  · exact List.mem_append_left _ h

lemma self_mem_insertOnce (acc : List String) (x : String) :
    x ∈ insertOnce acc x := by
  unfold insertOnce
  split
  · assumption
  · exact List.mem_append_right _ (List.mem_singleton_self x)

lemma mem_foldl_insertOnce_of_mem_acc {l : List String} {acc : List String}
    {x : String} (h : x ∈ acc) : x ∈ l.foldl insertOnce acc := by
  induction l generalizing acc with
  | nil => exact h
  | cons y ys ih => exact ih (mem_insertOnce_of_mem y h)

lemma mem_foldl_insertOnce_of_mem {l : List String} {acc : List String}
    {x : String} (h : x ∈ l) : x ∈ l.foldl insertOnce acc := by
  induction l generalizing acc with
  | nil => cases h
  | cons y ys ih =>
    simp only [List.foldl_cons]
    rcases List.mem_cons.mp h with rfl | hx
    · exact mem_foldl_insertOnce_of_mem_acc (self_mem_insertOnce acc x)
    · exact ih hx

lemma foldl_insertOnce_eq_of_subset {l acc : List String}
    (h : ∀ x ∈ l, x ∈ acc) : l.foldl insertOnce acc = acc := by
  induction l with
  | nil => rfl
  | cons y ys ih =>
    have hy : y ∈ acc := h y (List.mem_cons_self y ys)
    simp only [List.foldl_cons, insertOnce, if_pos hy]
    exact ih (fun x hx => h x (List.mem_cons_of_mem y hx))

lemma nodup_insertOnce {acc : List String} (x : String) (h : acc.Nodup) :
    (insertOnce acc x).Nodup := by
  unfold insertOnce
  split
  · exact h
  · rw [← List.concat_eq_append]
    exact List.Nodup.concat (by assumption) h

lemma nodup_foldl_insertOnce {l acc : List String} (h : acc.Nodup) :
    (l.foldl insertOnce acc).Nodup := by
  induction l generalizing acc with
  | nil => exact h
  | cons y ys ih => exact ih (nodup_insertOnce y h)

lemma foldl_insertOnce_eq_keepFirst (l : List String) (acc : List String) :
    l.foldl insertOnce acc
      = acc ++ keepFirst (l.filter (fun x => decide (x ∉ acc))) := by
  induction l generalizing acc with
  | nil => simp [keepFirst]
  | cons x xs ih =>
    by_cases hx : x ∈ acc
    · have h1 : insertOnce acc x = acc := by simp [insertOnce, hx]
      have h2 : (x :: xs).filter (fun y => decide (y ∉ acc))
          = xs.filter (fun y => decide (y ∉ acc)) := by
        simp [List.filter_cons, hx]
      rw [List.foldl_cons, h1, h2, ih]
    · have h1 : insertOnce acc x = acc ++ [x] := by simp [insertOnce, hx]
      have h2 : (x :: xs).filter (fun y => decide (y ∉ acc))
          = x :: xs.filter (fun y => decide (y ∉ acc)) := by
        simp [List.filter_cons, hx]
      have h3 : xs.filter (fun y => decide (y ∉ acc ++ [x]))
          = (xs.filter (fun y => decide (y ∉ acc))).filter
              (fun y => decide (y ≠ x)) := by
        rw [List.filter_filter]
        apply List.filter_congr
        intro y _
        by_cases hya : y ∈ acc <;> by_cases hyx : y = x <;>
          simp [hya, hyx]
      rw [List.foldl_cons, h1, ih, h2, keepFirst, h3, List.append_assoc]
      rfl

lemma foldl_insertOnce_flatten (ls : List (List String)) (acc : List String) :
    ls.foldl (fun acc argdefs => argdefs.foldl insertOnce acc) acc
      = ls.flatten.foldl insertOnce acc := by
  induction ls generalizing acc with
  | nil => rfl
  | cons l ls' ih =>
    simp only [List.foldl_cons, List.flatten_cons, List.foldl_append]
    exact ih _

lemma orderedUnion_eq_keepFirst (ls : List (List String)) :
    orderedUnion ls = keepFirst ls.flatten := by
  unfold orderedUnion
  rw [foldl_insertOnce_flatten, foldl_insertOnce_eq_keepFirst]
  have hp : (fun x : String => decide (x ∉ ([] : List String)))
      = fun _ => true := by
    funext x
    simp
  rw [hp, List.filter_true, List.nil_append]

lemma orderedUnion_nodup (ls : List (List String)) :
    (orderedUnion ls).Nodup := by
  unfold orderedUnion
  rw [foldl_insertOnce_flatten]
  exact nodup_foldl_insertOnce List.nodup_nil

lemma orderedUnion_reinsert (A B : List String) :
    orderedUnion [A, B, A] = orderedUnion [A, B] := by
  unfold orderedUnion
  simp only [List.foldl_cons, List.foldl_nil]
  apply foldl_insertOnce_eq_of_subset
  intro x hx
  exact mem_foldl_insertOnce_of_mem_acc (mem_foldl_insertOnce_of_mem hx)

/-! ## Lemmas about `get_numel_argdefs` and the timing argmin -/

lemma foldl_ite_append_eq_filter_map {α β : Type} (p : α → Prop)
    [DecidablePred p] (g : α → β) (l : List α) (acc : List β) :
    l.foldl (fun acc x => if p x then acc ++ [g x] else acc) acc
      = acc ++ (l.filter (fun x => decide (p x))).map g := by
  induction l generalizing acc with
  | nil => simp
  | cons x xs ih =>
    by_cases hx : p x
    · simp [List.foldl_cons, List.filter_cons, hx, ih]
    · simp [List.foldl_cons, List.filter_cons, hx, ih]

lemma listMin_le_start (t : Int) (ts : List Int) : listMin t ts ≤ t := by
  induction ts generalizing t with
  | nil => exact le_refl t
  | cons y ys ih =>
    exact le_trans (ih (min t y)) (min_le_left t y)

lemma listMin_le_mem (t : Int) (ts : List Int) :
    ∀ y ∈ ts, listMin t ts ≤ y := by
  induction ts generalizing t with
  | nil => intro y hy; cases hy
  | cons z zs ih =>
    intro y hy
    rcases List.mem_cons.mp hy with rfl | hy'
    · exact le_trans (listMin_le_start (min t y) zs) (min_le_right t y)
    · exact ih (min t z) y hy'

lemma listMin_mem (t : Int) (ts : List Int) : listMin t ts ∈ t :: ts := by
  induction ts generalizing t with
  | nil => exact List.mem_singleton_self t
  | cons y ys ih =>
    have h := ih (min t y)
    rcases List.mem_cons.mp h with h1 | h2
    · rcases min_choice t y with hm | hm
      · rw [listMin, h1, hm]; exact List.mem_cons_self _ _
      · rw [listMin, h1, hm]
        exact List.mem_cons_of_mem _ (List.mem_cons_self _ _)
    · exact List.mem_cons_of_mem _ (List.mem_cons_of_mem _ h2)

lemma listIndex_lt_length {m : Int} {l : List Int} (h : m ∈ l) :
    listIndex m l < l.length := by
  induction l with
  | nil => cases h
  | cons y ys ih =>
    by_cases hy : y = m
    · simp [listIndex, hy]
    · rcases List.mem_cons.mp h with rfl | h'
      · exact absurd rfl hy
      · simpa [listIndex, hy, Nat.succ_lt_succ_iff] using ih h'

lemma listIndex_getD {m : Int} {l : List Int} (h : m ∈ l) :
    l.getD (listIndex m l) 0 = m := by
  induction l with
  | nil => cases h
  | cons y ys ih =>
    by_cases hy : y = m
    · simp [listIndex, hy]
    · rcases List.mem_cons.mp h with rfl | h'
      · exact absurd rfl hy
      · simpa [listIndex, hy] using ih h'

lemma listIndex_earlier_ne {m : Int} {l : List Int} :
    ∀ j, j < listIndex m l → l.getD j 0 ≠ m := by
  induction l with
  | nil => intro j hj; simp [listIndex] at hj
  | cons y ys ih =>
    intro j hj
    by_cases hy : y = m
    · simp [listIndex, hy] at hj
    · cases j with
      | zero => simpa using hy
      | succ j' =>
        simp only [listIndex, if_neg hy, Nat.succ_lt_succ_iff] at hj
        simpa using ih j' hj

lemma listIndex_zero_of_head (m : Int) (ts : List Int) :
    listIndex m (m :: ts) = 0 := by
  simp [listIndex]

lemma pickMinIdx_cons (t : Int) (ts : List Int) :
    pickMinIdx (t :: ts) = listIndex (listMin t ts) (t :: ts) := rfl

lemma pickMinIdx_lt_length {l : List Int} (h : l ≠ []) :
    pickMinIdx l < l.length := by
  cases l with
  | nil => exact absurd rfl h
  | cons t ts => exact listIndex_lt_length (listMin_mem t ts)

lemma pickMinIdx_is_min {l : List Int} (h : l ≠ []) :
    ∀ y ∈ l, l.getD (pickMinIdx l) 0 ≤ y := by
  cases l with
  | nil => exact absurd rfl h
  | cons t ts =>
    intro y hy
    rw [pickMinIdx_cons, listIndex_getD (listMin_mem t ts)]
    rcases List.mem_cons.mp hy with rfl | hy'
    · exact listMin_le_start y ts
    · exact listMin_le_mem t ts y hy'

lemma pickMinIdx_stable {l : List Int} (h : l ≠ []) :
    ∀ j, j < pickMinIdx l → j < l.length →
      l.getD (pickMinIdx l) 0 < l.getD j 0 := by
  cases l with
  | nil => exact absurd rfl h
  | cons t ts =>
    intro j hj hjl
    have hne : (t :: ts).getD j 0 ≠ (t :: ts).getD (pickMinIdx (t :: ts)) 0 := by
      rw [pickMinIdx_cons, listIndex_getD (listMin_mem t ts)]
      rw [pickMinIdx_cons] at hj
      exact listIndex_earlier_ne j hj
    have hle : (t :: ts).getD (pickMinIdx (t :: ts)) 0 ≤ (t :: ts).getD j 0 := by
      apply pickMinIdx_is_min (by simp)
      rw [List.getD_eq_getElem _ _ hjl]
      exact List.getElem_mem hjl
    exact lt_of_le_of_ne hle (fun he => hne he.symm)

lemma pickMinIdx_all_eq {l : List Int} (h : l ≠ [])
    (heq : ∀ a ∈ l, ∀ b ∈ l, a = b) : pickMinIdx l = 0 := by
  cases l with
  | nil => exact absurd rfl h
  | cons t ts =>
    have hm : listMin t ts = t :=
      heq (listMin t ts) (listMin_mem t ts) t (List.mem_cons_self t ts)
    rw [pickMinIdx_cons, hm, listIndex_zero_of_head]

/-! ## Lemmas about the registry -/

lemma string_append_left_cancel {p a b : String} (h : p ++ a = p ++ b) :
    a = b := by
  have hd : (p ++ a).data = (p ++ b).data := congrArg String.data h
  have hd2 : p.data ++ a.data = p.data ++ b.data := by
    simpa [String.data_append] using hd
  have hab : a.data = b.data := List.append_cancel_left hd2
  cases a
  cases b
  exact congrArg String.mk hab

lemma lookup_ne_none_of_mem {β : Type} {k : List String} {v : β}
    {l : List (List String × β)} (h : (k, v) ∈ l) : l.lookup k ≠ none := by
  induction l with
  | nil => cases h
  | cons p ps ih =>
    rcases List.mem_cons.mp h with rfl | h'
    · simp only [List.lookup, beq_self_eq_true]
      exact Option.some_ne_none v
    · obtain ⟨a, b⟩ := p
      cases hk : k == a with
      | true => simp only [List.lookup, hk]; exact Option.some_ne_none b
      | false => simp only [List.lookup, hk]; exact ih h'

lemma lookup_append_singleton {k : List String} {v : String}
    {l : List (List String × String)} (h : l.lookup k = none) :
    (l ++ [(k, v)]).lookup k = some v := by
  induction l with
  | nil => simp only [List.nil_append, List.lookup, beq_self_eq_true]
  | cons p ps ih =>
    obtain ⟨a, b⟩ := p
    cases hk : k == a with
    | true => simp only [List.lookup, hk] at h; cases h
    | false =>
      rw [List.cons_append]
      simp only [List.lookup, hk] at h ⊢
      exact ih h

lemma define_kernel_lookup_hit {st : MultiKernelState} {ks : List Kernel}
    {nm : String}
    (hlook : st.subkernel_to_kernel_name.lookup (ks.map Kernel.kernel_name)
        = some nm) :
    st.define_kernel ks = (st, Except.ok nm) := by
  simp [MultiKernelState.define_kernel, hlook]

lemma define_kernel_empty_names {st : MultiKernelState} {ks : List Kernel}
    (hns : ks.map Kernel.kernel_name = [])
    (hlook : st.subkernel_to_kernel_name.lookup (ks.map Kernel.kernel_name)
        = none) :
    st.define_kernel ks = (st, Except.error DefineErr.indexErr) := by
  rw [hns] at hlook
  simp [MultiKernelState.define_kernel, hns, hlook]

lemma define_kernel_collision {st : MultiKernelState} {ks : List Kernel}
    {h : String} {tl : List String}
    (hns : ks.map Kernel.kernel_name = h :: tl)
    (hlook : st.subkernel_to_kernel_name.lookup (ks.map Kernel.kernel_name)
        = none)
    (hused : ("multi_kernel_" ++ h) ∈ st.used_names) :
    st.define_kernel ks = (st, Except.error DefineErr.assertFail) := by
  rw [hns] at hlook
  simp [MultiKernelState.define_kernel, hns, hlook, hused]

lemma define_kernel_fresh_parts {st : MultiKernelState} {ks : List Kernel}
    {h : String} {tl : List String}
    (hns : ks.map Kernel.kernel_name = h :: tl)
    (hlook : st.subkernel_to_kernel_name.lookup (ks.map Kernel.kernel_name)
        = none)
    (hused : ("multi_kernel_" ++ h) ∉ st.used_names) :
    (st.define_kernel ks).1.used_names
        = st.used_names ++ ["multi_kernel_" ++ h] ∧
    (st.define_kernel ks).1.subkernel_to_kernel_name
        = st.subkernel_to_kernel_name ++ [(h :: tl, "multi_kernel_" ++ h)] ∧
    (∀ e, (st.define_kernel ks).2 = Except.error e → e = DefineErr.indexErr) ∧
    (∀ s, (st.define_kernel ks).2 = Except.ok s → s = "multi_kernel_" ++ h) := by
  rw [hns] at hlook
  cases hb : build_src_code ("multi_kernel_" ++ h) ks with
  | none =>
    refine ⟨?_, ?_, ?_, ?_⟩ <;>
      simp [MultiKernelState.define_kernel, hns, hlook, hused, hb]
  | some glue =>
    refine ⟨?_, ?_, ?_, ?_⟩ <;>
      simp [MultiKernelState.define_kernel, hns, hlook, hused, hb]

lemma define_kernel_ok_lookup {st st1 : MultiKernelState} {ks : List Kernel}
    {nm : String} (h : st.define_kernel ks = (st1, Except.ok nm)) :
    st1.subkernel_to_kernel_name.lookup (ks.map Kernel.kernel_name)
      = some nm := by
  cases hlook : st.subkernel_to_kernel_name.lookup (ks.map Kernel.kernel_name)
      with
  | some nm' =>
    rw [define_kernel_lookup_hit hlook] at h
    have h1 : st = st1 := congrArg Prod.fst h
    have h2 : (Except.ok nm' : Except DefineErr String) = Except.ok nm :=
      congrArg Prod.snd h
    injection h2 with h3
    rw [← h1, ← h3]
    exact hlook
  | none =>
    cases hns : ks.map Kernel.kernel_name with
    | nil =>
      rw [define_kernel_empty_names hns hlook] at h
      cases congrArg Prod.snd h
    | cons h1 tl =>
      by_cases hused : ("multi_kernel_" ++ h1) ∈ st.used_names
      · rw [define_kernel_collision hns hlook hused] at h
        cases congrArg Prod.snd h
      · obtain ⟨_, hdict, _, hok⟩ := define_kernel_fresh_parts hns hlook hused
        have hnm : nm = "multi_kernel_" ++ h1 := by
          apply hok
          rw [h]
        have hst1 : st1.subkernel_to_kernel_name
            = st.subkernel_to_kernel_name ++ [(h1 :: tl, "multi_kernel_" ++ h1)] := by
          rw [← hdict, h]
        have hlook2 : List.lookup (h1 :: tl) st.subkernel_to_kernel_name
            = none := by
          rw [← hns]
          exact hlook
        rw [hst1, hnm]
        exact lookup_append_singleton hlook2

/-! ## Lemmas about the run-time dispatcher -/

lemma bench_all_ok {C E : Type} (do_bench : C → Nat → Bool → Except E Int)
    (val : C → Int) (calls : List C)
    (hb : ∀ c ∈ calls, do_bench c 40 true = Except.ok (val c)) :
    bench_all do_bench calls = (calls.length, Except.ok (calls.map val)) := by
  induction calls with
  | nil => rfl
  | cons c cs ih =>
    have hc : do_bench c 40 true = Except.ok (val c) :=
      hb c (List.mem_cons_self c cs)
    have ihs : bench_all do_bench cs = (cs.length, Except.ok (cs.map val)) :=
      ih (fun x hx => hb x (List.mem_cons_of_mem c hx))
    simp [bench_all, hc, ihs, Except.map]

lemma bench_all_error {C E : Type} (do_bench : C → Nat → Bool → Except E Int)
    (calls : List C)
    (hfail : ∃ c ∈ calls, ∃ e, do_bench c 40 true = Except.error e) :
    ∃ n e, bench_all do_bench calls = (n, Except.error e) := by
  induction calls with
  | nil =>
    obtain ⟨c, hc, _⟩ := hfail
    cases hc
  | cons c cs ih =>
    cases hc : do_bench c 40 true with
    | error e => exact ⟨1, e, by simp [bench_all, hc]⟩
    | ok t =>
      obtain ⟨c', hc', e', he'⟩ := hfail
      have hcs : ∃ c'' ∈ cs, ∃ e'', do_bench c'' 40 true = Except.error e'' := by
        rcases List.mem_cons.mp hc' with rfl | hmem
        · rw [hc] at he'
          cases he'
        · exact ⟨c', hmem, e', he'⟩
      obtain ⟨n, e, hne⟩ := ih hcs
      refine ⟨n + 1, e, ?_⟩
      simp [bench_all, hc, hne, Except.map]

lemma run_decided {C E K : Type} (do_bench : C → Nat → Bool → Except E Int)
    (st : MultiKernelCall K) (i : Nat) (h : st.picked_kernel = some i)
    (calls : List C) :
    run_with_argless_kernels do_bench st calls
      = (st, 0,
         match calls.get? i with
         | some c => Except.ok c
         | none => Except.error RunError.badIndex) := by
  cases hc : calls.get? i with
  | some c =>
    rw [run_with_argless_kernels, h]
    dsimp only
    rw [hc]
  | none =>
    rw [run_with_argless_kernels, h]
    dsimp only
    rw [hc]

lemma run_undecided_ok {C E K : Type}
    (do_bench : C → Nat → Bool → Except E Int) (st : MultiKernelCall K)
    (calls : List C) (val : C → Int)
    (hnone : st.picked_kernel = none) (hne : calls ≠ [])
    (hb : ∀ c ∈ calls, do_bench c 40 true = Except.ok (val c)) :
    ∃ c, calls.get? (pickMinIdx (calls.map val)) = some c ∧
      run_with_argless_kernels do_bench st calls
        = ({ st with picked_kernel := some (pickMinIdx (calls.map val)) },
           calls.length, Except.ok c) := by
  have hba := bench_all_ok do_bench val calls hb
  have hmapne : calls.map val ≠ [] := by
    intro hcon
    exact hne (List.map_eq_nil_iff.mp hcon)
  obtain ⟨t, ts, hts⟩ : ∃ t ts, calls.map val = t :: ts := by
    cases hmv : calls.map val with
    | nil => exact absurd hmv hmapne
    | cons t ts => exact ⟨t, ts, rfl⟩
  have hidx : pickMinIdx (calls.map val) < calls.length := by
    have := pickMinIdx_lt_length hmapne
    rwa [List.length_map] at this
  cases hc0 : calls.get? (pickMinIdx (calls.map val)) with
  | none =>
    exfalso
    rw [List.get?_eq_none] at hc0
    exact absurd hidx (not_lt.mpr hc0)
  | some c =>
    refine ⟨c, rfl, ?_⟩
    rw [hts] at hc0
    rw [run_with_argless_kernels, hnone, hba, hts]
    dsimp only
    rw [hc0]

lemma run_undecided_error {C E K : Type}
    (do_bench : C → Nat → Bool → Except E Int) (st : MultiKernelCall K)
    (calls : List C) (hnone : st.picked_kernel = none)
    (hfail : ∃ c ∈ calls, ∃ e, do_bench c 40 true = Except.error e) :
    ∃ e n, run_with_argless_kernels do_bench st calls
      = (st, n, Except.error (RunError.benchFail e)) := by
  obtain ⟨n, e, hne⟩ := bench_all_error do_bench calls hfail
  refine ⟨e, n, ?_⟩
  rw [run_with_argless_kernels, hnone, hne]

/-! ## Lemmas about the registry invariant -/

lemma registry_inv_weaken {st : MultiKernelState}
    {processed : List (List Kernel)} (g : List Kernel)
    (hInv : RegistryInv st processed) : RegistryInv st (processed ++ [g]) := by
  intro n hn
  obtain ⟨g', hg', h, tl, hmap, hname, hmem⟩ := hInv n hn
  exact ⟨g', List.mem_append_left _ hg', h, tl, hmap, hname, hmem⟩

lemma registry_inv_step (st : MultiKernelState)
    (processed : List (List Kernel)) (g : List Kernel)
    (hInv : RegistryInv st processed) :
    RegistryInv (st.define_kernel g).1 (processed ++ [g]) := by
  cases hlook : st.subkernel_to_kernel_name.lookup (g.map Kernel.kernel_name)
      with
  | some nm =>
    rw [define_kernel_lookup_hit hlook]
    exact registry_inv_weaken g hInv
  | none =>
    cases hns : g.map Kernel.kernel_name with
    | nil =>
      rw [define_kernel_empty_names hns hlook]
      exact registry_inv_weaken g hInv
    | cons h1 tl =>
      by_cases hused : ("multi_kernel_" ++ h1) ∈ st.used_names
      · rw [define_kernel_collision hns hlook hused]
        exact registry_inv_weaken g hInv
      · obtain ⟨hus, hdict, _, _⟩ := define_kernel_fresh_parts hns hlook hused
        intro n hn
        rw [hus] at hn
        rcases List.mem_append.mp hn with hold | hnew
        · obtain ⟨g', hg', h, tl', hmap, hname, hmem⟩ := hInv n hold
          refine ⟨g', List.mem_append_left _ hg', h, tl', hmap, hname, ?_⟩
          rw [hdict]
          exact List.mem_append_left _ hmem
        · have hn1 : n = "multi_kernel_" ++ h1 := List.mem_singleton.mp hnew
          refine ⟨g, List.mem_append_right _ (List.mem_singleton_self g),
            h1, tl, hns, hn1, ?_⟩
          rw [hdict, hns, hn1]
          exact List.mem_append_right _ (List.mem_singleton_self _)

lemma define_kernel_no_assert {all : List (List Kernel)}
    (hd : ∀ g1 ∈ all, ∀ g2 ∈ all,
      g1.map Kernel.kernel_name ≠ g2.map Kernel.kernel_name →
      (g1.map Kernel.kernel_name).head? ≠ (g2.map Kernel.kernel_name).head?)
    {st : MultiKernelState} {processed : List (List Kernel)} {g : List Kernel}
    (hg : g ∈ all) (hproc : ∀ p ∈ processed, p ∈ all)
    (hInv : RegistryInv st processed) :
    (st.define_kernel g).2 ≠ Except.error DefineErr.assertFail := by
  cases hlook : st.subkernel_to_kernel_name.lookup (g.map Kernel.kernel_name)
      with
  | some nm =>
    rw [define_kernel_lookup_hit hlook]
    intro hcon
    cases hcon
  | none =>
    cases hns : g.map Kernel.kernel_name with
    | nil =>
      rw [define_kernel_empty_names hns hlook]
      intro hcon
      cases hcon
    | cons h1 tl =>
      by_cases hused : ("multi_kernel_" ++ h1) ∈ st.used_names
      · exfalso
        obtain ⟨g', hg', h', tl', hmap, hname, hmem⟩ := hInv _ hused
        have hh : h1 = h' := string_append_left_cancel hname
        have hkeys : g'.map Kernel.kernel_name ≠ g.map Kernel.kernel_name := by
          intro he
          apply lookup_ne_none_of_mem hmem
          rw [he]
          exact hlook
        have hheads := hd g' (hproc g' hg') g hg hkeys
        apply hheads
        rw [hmap, hns, hh]
        rfl
      · obtain ⟨_, _, herr, _⟩ := define_kernel_fresh_parts hns hlook hused
        intro hcon
        cases herr DefineErr.assertFail hcon

/-! ## Claim theorems -/

/-- C6: for every list of variants, the computed union of argument names
(`get_all_kernel_argdefs`, and the analogous union over `get_call_args`
in `MultiKernel.call_kernel`) is duplicate-free and order-preserving by
first occurrence of each name across the variants taken in order, and
re-appending an already-seen variant's arguments changes nothing:
`union_of(A,B) = union_of(A,B,A)`. -/
theorem kernel_arg_union_first_occurrence_nodup_idempotent
    (kernels : List Kernel) (a b : Kernel) :
    (get_all_kernel_argdefs kernels).Nodup
    ∧ get_all_kernel_argdefs kernels
        = keepFirst (kernels.map get_kernel_argdefs).flatten
    ∧ get_all_kernel_argdefs [a, b, a] = get_all_kernel_argdefs [a, b]
    ∧ (all_call_args kernels).Nodup
    ∧ all_call_args kernels
        = keepFirst (kernels.map Kernel.call_args).flatten
    ∧ all_call_args [a, b, a] = all_call_args [a, b] := by
  refine ⟨orderedUnion_nodup _, orderedUnion_eq_keepFirst _, ?_,
    orderedUnion_nodup _, orderedUnion_eq_keepFirst _, ?_⟩
  · exact orderedUnion_reinsert (get_kernel_argdefs a) (get_kernel_argdefs b)
  · exact orderedUnion_reinsert a.call_args b.call_args

/-- C7: `get_numel_argdefs` returns, in the variant's dimension order, the
size-parameter name (`prefix + "numel"`) of each iteration dimension; a
reduction dimension (`prefix = "r"`) contributes its name exactly when the
variant is operating with `inside_reduction`, while non-reduction
dimensions are always included. -/
theorem numel_argdefs_reduction_rule (k : Kernel) :
    get_numel_argdefs k
        = (k.range_trees.filter
            (fun t => decide (t.prefixStr ≠ "r" ∨ k.inside_reduction = true))).map
            (fun t => t.prefixStr ++ "numel")
    ∧ get_numel_argdefs k =
        (if k.inside_reduction then
          k.range_trees.map (fun t => t.prefixStr ++ "numel")
        else
          (k.range_trees.filter (fun t => decide (t.prefixStr ≠ "r"))).map
            (fun t => t.prefixStr ++ "numel")) := by
  have h1 : get_numel_argdefs k
      = (k.range_trees.filter
          (fun t => decide (t.prefixStr ≠ "r" ∨ k.inside_reduction = true))).map
          (fun t => t.prefixStr ++ "numel") := by
    have := foldl_ite_append_eq_filter_map
      (fun t : RangeTree => t.prefixStr ≠ "r" ∨ k.inside_reduction = true)
      (fun t : RangeTree => t.prefixStr ++ "numel") k.range_trees []
    rw [List.nil_append] at this
    exact this
  refine ⟨h1, ?_⟩
  cases hk : k.inside_reduction with
  | true =>
    rw [if_pos rfl, h1, hk]
    have hp : (fun t : RangeTree =>
        decide (t.prefixStr ≠ "r" ∨ true = true)) = fun _ => true := by
      funext t
      simp
    rw [hp, List.filter_true]
  | false =>
    rw [if_neg (by simp), h1, hk]
    have hp : (fun t : RangeTree =>
        decide (t.prefixStr ≠ "r" ∨ false = true))
        = fun t : RangeTree => decide (t.prefixStr ≠ "r") := by
      funext t
      simp
    rw [hp]

/-- C1: once `picked_kernel` has been set on a `MultiKernelCall` instance,
every subsequent `run_with_argless_kernels` invocation leaves the state
unchanged (in particular `picked_kernel` is never changed), performs zero
`do_bench` calls in total, and each invocation invokes exactly the
supplied call at that same stored index. -/
theorem run_with_argless_kernels_selection_permanent {C E K : Type}
    (do_bench : C → Nat → Bool → Except E Int) (st : MultiKernelCall K)
    (i : Nat) (h : st.picked_kernel = some i) (seqs : List (List C)) :
    run_seq do_bench st seqs
      = (st, 0, seqs.map (fun calls =>
          match calls.get? i with
          | some c => Except.ok c
          | none => Except.error RunError.badIndex)) := by
  induction seqs with
  | nil => rfl
  | cons cs rest ih =>
    have hr := run_decided do_bench st i h cs
    rw [run_seq, hr]
    dsimp only
    rw [ih]
    simp

/-- C2: calling `define_kernel` twice with kernel lists having the
identical ordered tuple of kernel names returns the identical dispatcher
name and leaves the whole registry state — including the wrapper header,
so no second glue block is spliced — unchanged. -/
theorem define_kernel_idempotent_on_same_names (st st1 : MultiKernelState)
    (ks ks' : List Kernel) (nm : String)
    (h1 : st.define_kernel ks = (st1, Except.ok nm))
    (h2 : ks'.map Kernel.kernel_name = ks.map Kernel.kernel_name) :
    st1.define_kernel ks' = (st1, Except.ok nm) := by
  have hl := define_kernel_ok_lookup h1
  apply define_kernel_lookup_hit
  rw [h2]
  exact hl

/-- C9: if any candidate call raises during the one-time benchmarking pass
of `run_with_argless_kernels`, the exception is propagated to the caller
(wrapped as `RunError.benchFail`, with no silent fallback) and the state
is unchanged: `picked_kernel` remains unset. -/
theorem benchmark_failure_propagates_state_unchanged {C E K : Type}
    (do_bench : C → Nat → Bool → Except E Int) (st : MultiKernelCall K)
    (calls : List C) (hnone : st.picked_kernel = none)
    (hfail : ∃ c ∈ calls, ∃ e, do_bench c 40 true = Except.error e) :
    ∃ e n, run_with_argless_kernels do_bench st calls
        = (st, n, Except.error (RunError.benchFail e))
      ∧ (run_with_argless_kernels do_bench st calls).1.picked_kernel
        = none := by
  obtain ⟨e, n, h⟩ := run_undecided_error do_bench st calls hnone hfail
  refine ⟨e, n, h, ?_⟩
  rw [h]
  exact hnone

/-- C3: on the first call (`picked_kernel` unset), every supplied
zero-argument call is benchmarked exactly once (the `do_bench` count
equals the list length, each at `rep = 40` with `fast_flush = True`, as
fixed in the model of the benchmarking loop), and `picked_kernel` is set
to the stable argmin of the resulting timings: it attains the minimum,
every strictly earlier timing is strictly larger, and when all timings
are equal index 0 is selected; the call at that index is then invoked. -/
theorem run_with_argless_kernels_first_call_selection {C E K : Type}
    (do_bench : C → Nat → Bool → Except E Int) (st : MultiKernelCall K)
    (calls : List C) (val : C → Int)
    (hnone : st.picked_kernel = none) (hne : calls ≠ [])
    (hb : ∀ c ∈ calls, do_bench c 40 true = Except.ok (val c)) :
    (run_with_argless_kernels do_bench st calls).2.1 = calls.length
    ∧ (run_with_argless_kernels do_bench st calls).1.picked_kernel
        = some (pickMinIdx (calls.map val))
    ∧ pickMinIdx (calls.map val) < calls.length
    ∧ (∀ t ∈ calls.map val,
        (calls.map val).getD (pickMinIdx (calls.map val)) 0 ≤ t)
    ∧ (∀ j, j < pickMinIdx (calls.map val) →
        (calls.map val).getD (pickMinIdx (calls.map val)) 0
          < (calls.map val).getD j 0)
    ∧ ((∀ t1 ∈ calls.map val, ∀ t2 ∈ calls.map val, t1 = t2) →
        pickMinIdx (calls.map val) = 0)
    ∧ ∃ c, calls.get? (pickMinIdx (calls.map val)) = some c
        ∧ (run_with_argless_kernels do_bench st calls).2.2 = Except.ok c := by
  obtain ⟨c, hc, hrun⟩ := run_undecided_ok do_bench st calls val hnone hne hb
  have hmapne : calls.map val ≠ [] := fun hcon =>
    hne (List.map_eq_nil_iff.mp hcon)
  have hidx := pickMinIdx_lt_length hmapne
  refine ⟨by rw [hrun], by rw [hrun], by rwa [List.length_map] at hidx,
    pickMinIdx_is_min hmapne, ?_, pickMinIdx_all_eq hmapne,
    c, hc, by rw [hrun]⟩
  intro j hj
  exact pickMinIdx_stable hmapne j hj (lt_trans hj hidx)

/-- C10: every invocation of `run_with_argless_kernels` on a non-empty
call list — including the deciding one, provided benchmarking succeeds —
ends by invoking exactly the supplied call at index `picked_kernel`, and
that index is a valid index into the supplied list whenever any
previously stored index is (in particular whenever the list has the same
length as the one that set `picked_kernel`, since the deciding run
stores an index below that length). -/
theorem run_invokes_exactly_picked_index {C E K : Type}
    (do_bench : C → Nat → Bool → Except E Int) (st : MultiKernelCall K)
    (calls : List C) (val : C → Int) (hne : calls ≠ [])
    (hb : ∀ c ∈ calls, do_bench c 40 true = Except.ok (val c))
    (hvalid : ∀ i, st.picked_kernel = some i → i < calls.length) :
    ∃ i, (run_with_argless_kernels do_bench st calls).1.picked_kernel
        = some i
      ∧ i < calls.length
      ∧ ∃ c, calls.get? i = some c
        ∧ (run_with_argless_kernels do_bench st calls).2.2
            = Except.ok c := by
  cases hp : st.picked_kernel with
  | some i =>
    have hi := hvalid i hp
    have hr := run_decided do_bench st i hp calls
    obtain ⟨c, hcc⟩ : ∃ c, calls.get? i = some c := by
      cases hg : calls.get? i with
      | none =>
        rw [List.get?_eq_none] at hg
        exact absurd hi (not_lt.mpr hg)
      | some c => exact ⟨c, rfl⟩
    refine ⟨i, ?_, hi, c, hcc, ?_⟩
    · rw [hr]
      exact hp
    · rw [hr, hcc]
  | none =>
    obtain ⟨c, hc, hrun⟩ := run_undecided_ok do_bench st calls val hp hne hb
    have hmapne : calls.map val ≠ [] := fun hcon =>
      hne (List.map_eq_nil_iff.mp hcon)
    have hidx := pickMinIdx_lt_length hmapne
    refine ⟨pickMinIdx (calls.map val), by rw [hrun],
      by rwa [List.length_map] at hidx, c, hc, by rw [hrun]⟩

lemma define_kernel_fresh_success {st : MultiKernelState} {k0 k1 : Kernel}
    {rest : List Kernel}
    (hlook : st.subkernel_to_kernel_name.lookup
        ((k0 :: k1 :: rest).map Kernel.kernel_name) = none)
    (hused : ("multi_kernel_" ++ k0.kernel_name) ∉ st.used_names) :
    st.define_kernel (k0 :: k1 :: rest) =
      ({ subkernel_to_kernel_name :=
            st.subkernel_to_kernel_name
              ++ [((k0 :: k1 :: rest).map Kernel.kernel_name,
                   "multi_kernel_" ++ k0.kernel_name)]
         used_names :=
            st.used_names ++ ["multi_kernel_" ++ k0.kernel_name]
         header :=
            st.header
              ++ [{ multi_kernel_name := "multi_kernel_" ++ k0.kernel_name
                    kernel_names := (k0 :: k1 :: rest).map Kernel.kernel_name
                    signature_args := get_all_kernel_argdefs (k0 :: k1 :: rest)
                    signature_numels := get_numel_argdefs k0
                    closures :=
                      [ { kernel_index := 0
                          run_args := get_kernel_argdefs k0
                          run_numels := get_numel_argdefs k0 }
                      , { kernel_index := 1
                          run_args := get_kernel_argdefs k1
                          run_numels := get_numel_argdefs k1 } ]
                    dispatched := [0, 1] }] },
       Except.ok ("multi_kernel_" ++ k0.kernel_name)) := by
  have hlook2 : List.lookup
      (k0.kernel_name :: k1.kernel_name :: rest.map Kernel.kernel_name)
      st.subkernel_to_kernel_name = none := by
    simpa using hlook
  simp [MultiKernelState.define_kernel, hlook2, hused, build_src_code]

/-- C4 counterexample: `define_kernel` accepts a three-variant group (it
returns a dispatcher name), yet the single glue block it appends defines
exactly two zero-argument closures, not one per variant — refuting the
claim that the glue defines exactly as many closures as variants. -/
theorem glue_closure_count_counterexample :
    (MultiKernelState.init.define_kernel [kEx1, kEx2, kEx3]).2
        = Except.ok "multi_kernel_k1"
    ∧ ((MultiKernelState.init.define_kernel [kEx1, kEx2, kEx3]).1.header.map
        (fun b => b.closures.length)) = [2]
    ∧ [kEx1, kEx2, kEx3].length = 3
    ∧ (2 : Nat) ≠ 3 := by
  refine ⟨?_, ?_, rfl, by decide⟩ <;> rfl

/-- C4 (amended): for every variant group freshly registered by
`define_kernel`, the appended glue block defines exactly two zero-argument
closures — for the first two variants only, regardless of the group's
size — each invoking its own variant with that variant's own argument
subset plus that variant's own iteration-size names (which coincide with
the shared signature iteration sizes whenever the second variant's numel
set matches the first's, as the group invariant demands), and the ordered
pair `[call0, call1]` is what is passed to `run_with_argless_kernels`;
the closure count equals the number of variants exactly for two-variant
groups. -/
theorem define_kernel_glue_two_closures (st : MultiKernelState)
    (k0 k1 : Kernel) (rest : List Kernel)
    (hlook : st.subkernel_to_kernel_name.lookup
        ((k0 :: k1 :: rest).map Kernel.kernel_name) = none)
    (hused : ("multi_kernel_" ++ k0.kernel_name) ∉ st.used_names) :
    ∃ gb : GlueBlock,
      (st.define_kernel (k0 :: k1 :: rest)).1.header = st.header ++ [gb]
      ∧ (st.define_kernel (k0 :: k1 :: rest)).2
          = Except.ok ("multi_kernel_" ++ k0.kernel_name)
      ∧ gb.closures
          = [ { kernel_index := 0
                run_args := get_kernel_argdefs k0
                run_numels := get_numel_argdefs k0 }
            , { kernel_index := 1
                run_args := get_kernel_argdefs k1
                run_numels := get_numel_argdefs k1 } ]
      ∧ gb.dispatched = [0, 1]
      ∧ gb.signature_args = get_all_kernel_argdefs (k0 :: k1 :: rest)
      ∧ gb.signature_numels = get_numel_argdefs k0
      ∧ gb.closures.length = 2
      ∧ (rest = [] → gb.closures.length = (k0 :: k1 :: rest).length)
      ∧ (get_numel_argdefs k1 = get_numel_argdefs k0 →
          ∀ cl ∈ gb.closures, cl.run_numels = gb.signature_numels) := by
  rw [define_kernel_fresh_success hlook hused]
  refine ⟨_, rfl, rfl, rfl, rfl, rfl, rfl, rfl, ?_, ?_⟩
  · intro hrest
    rw [hrest]
    rfl
  · intro hnum cl hcl
    rcases List.mem_cons.mp hcl with rfl | hcl1
    · rfl
    · rcases List.mem_cons.mp hcl1 with rfl | hcl2
      · exact hnum
      · cases hcl2

/-- C5 counterexample: two `define_kernel` calls with pairwise-distinct
ordered kernel-name tuples (`("k1","k2")` then `("k1","k3")`) that share
a first kernel name: the second call's synthesized dispatcher name is
already in `used_names`, so the collision assertion fires — refuting the
claim that the assertion never fires for distinct tuples. -/
theorem define_kernel_collision_counterexample :
    [kEx1, kEx2].map Kernel.kernel_name ≠ [kEx1, kEx3].map Kernel.kernel_name
    ∧ (define_kernel_seq MultiKernelState.init [[kEx1, kEx2], [kEx1, kEx3]]).2
        = [Except.ok "multi_kernel_k1",
           Except.error DefineErr.assertFail] := by
  refine ⟨by decide, ?_⟩
  rfl

/-- C5 (amended): for every sequence of `define_kernel` calls, starting
from a fresh registry, in which any two groups with distinct ordered
kernel-name tuples also have distinct *first* kernel names, the
dispatcher name synthesized for each new tuple is never already in the
used-names set: the collision assertion never fires. -/
theorem define_kernel_no_collision_of_distinct_first_names
    (groups : List (List Kernel))
    (hd : ∀ g1 ∈ groups, ∀ g2 ∈ groups,
      g1.map Kernel.kernel_name ≠ g2.map Kernel.kernel_name →
      (g1.map Kernel.kernel_name).head? ≠ (g2.map Kernel.kernel_name).head?) :
    Except.error DefineErr.assertFail
      ∉ (define_kernel_seq MultiKernelState.init groups).2 := by
  suffices h : ∀ (gs processed : List (List Kernel)) (st : MultiKernelState),
      (∀ g ∈ gs, g ∈ groups) → (∀ p ∈ processed, p ∈ groups) →
      RegistryInv st processed →
      Except.error DefineErr.assertFail ∉ (define_kernel_seq st gs).2 by
    refine h groups [] MultiKernelState.init (fun g hg => hg)
      (fun p hp => absurd hp (List.not_mem_nil p)) ?_
    intro n hn
    exact absurd hn (List.not_mem_nil n)
  intro gs
  induction gs with
  | nil =>
    intro processed st _ _ _ hmem
    exact absurd hmem (List.not_mem_nil _)
  | cons g rest ih =>
    intro processed st hgs hproc hInv
    rw [define_kernel_seq]
    dsimp only
    intro hmem
    rcases List.mem_cons.mp hmem with heq | hrest
    · exact define_kernel_no_assert hd (hgs g (List.mem_cons_self g rest))
        hproc hInv heq.symm
    · refine ih (processed ++ [g]) (st.define_kernel g).1
        (fun x hx => hgs x (List.mem_cons_of_mem g hx))
        (fun p hp => ?_) (registry_inv_step st processed g hInv) hrest
      rcases List.mem_append.mp hp with hp1 | hp2
      · exact hproc p hp1
      · rw [List.mem_singleton.mp hp2]
        exact hgs g (List.mem_cons_self g rest)

/-- C8: constructing a `MultiKernel` or a `MultiKernelCall` with fewer
than 2 variants fails on the size assertion; with 2 or more variants the
size check passes — `MultiKernelCall` is constructed with
`picked_kernel` unset, and `MultiKernel` proceeds to register with the
registry and stores the dispatcher name registration returns (on a fresh
registry, registration of any group of at least 2 variants succeeds, so
the constructor stores a name). -/
theorem group_size_precondition (K : Type) (ksc : List K)
    (st : MultiKernelState) (ks : List Kernel) :
    (ksc.length < 2 → MultiKernelCall.init ksc = none)
    ∧ (2 ≤ ksc.length →
        MultiKernelCall.init ksc
          = some { kernels := ksc, picked_kernel := none })
    ∧ (ks.length < 2 →
        MultiKernel.init st ks = (st, Except.error InitErr.sizeAssert))
    ∧ (2 ≤ ks.length → ∀ st1 nm,
        st.define_kernel ks = (st1, Except.ok nm) →
        MultiKernel.init st ks = (st1, Except.ok ⟨ks, nm⟩))
    ∧ (2 ≤ ks.length → ∃ st1 nm,
        MultiKernel.init MultiKernelState.init ks
          = (st1, Except.ok ⟨ks, nm⟩)) := by
  refine ⟨?_, ?_, ?_, ?_, ?_⟩
  · intro hlt
    rw [MultiKernelCall.init, if_neg (by omega)]
  · intro hge
    rw [MultiKernelCall.init, if_pos hge]
  · intro hlt
    rw [MultiKernel.init, if_neg (by omega)]
  · intro hge st1 nm hdef
    rw [MultiKernel.init, if_pos hge, hdef]
  · intro hge
    obtain ⟨k0, k1, rest, rfl⟩ : ∃ k0 k1 rest, ks = k0 :: k1 :: rest := by
      cases ks with
      | nil => simp at hge
      | cons k0 ks' =>
        cases ks' with
        | nil => simp at hge
        | cons k1 rest => exact ⟨k0, k1, rest, rfl⟩
    have hlook : MultiKernelState.init.subkernel_to_kernel_name.lookup
        ((k0 :: k1 :: rest).map Kernel.kernel_name) = none := rfl
    have hused : ("multi_kernel_" ++ k0.kernel_name)
        ∉ MultiKernelState.init.used_names :=
      List.not_mem_nil _
    have hdef := define_kernel_fresh_success hlook hused
    refine ⟨(MultiKernelState.init.define_kernel (k0 :: k1 :: rest)).1,
      "multi_kernel_" ++ k0.kernel_name, ?_⟩
    rw [MultiKernel.init, if_pos hge, hdef]

/-! ## Witnesses -/

/-- Witness for C1 at a concrete decided instance. -/
theorem run_with_argless_kernels_selection_permanent_witness :
    run_seq (K := Unit) (E := Unit)
        (fun (_ : Nat) (_ : Nat) (_ : Bool) => (Except.ok 0 : Except Unit Int))
        { kernels := [], picked_kernel := some 1 } [[10, 20], [30, 40]]
      = ({ kernels := [], picked_kernel := some 1 }, 0,
         [Except.ok 20, Except.ok 40]) := by
  rw [run_with_argless_kernels_selection_permanent
    (fun (_ : Nat) (_ : Nat) (_ : Bool) => (Except.ok 0 : Except Unit Int))
    { kernels := [], picked_kernel := some 1 } 1 rfl [[10, 20], [30, 40]]]
  rfl

/-- Witness for C2 at a concrete re-registration. -/
theorem define_kernel_idempotent_on_same_names_witness :
    ((MultiKernelState.init.define_kernel [kEx1, kEx2]).1).define_kernel
        [kEx1, kEx2]
      = ((MultiKernelState.init.define_kernel [kEx1, kEx2]).1,
         Except.ok "multi_kernel_k1") :=
  define_kernel_idempotent_on_same_names MultiKernelState.init
    (MultiKernelState.init.define_kernel [kEx1, kEx2]).1
    [kEx1, kEx2] [kEx1, kEx2] "multi_kernel_k1" (by rfl) rfl

/-- Witness for C3 at a concrete first call: the middle call is fastest,
so index 1 is picked. -/
theorem run_with_argless_kernels_first_call_selection_witness :
    (run_with_argless_kernels (K := Unit)
        (fun (c : Nat) (_ : Nat) (_ : Bool) =>
          (Except.ok (if c = 2 then 1 else 5) : Except Unit Int))
        { kernels := [], picked_kernel := none } [1, 2, 3]).1.picked_kernel
      = some 1 := by
  have h := run_with_argless_kernels_first_call_selection (K := Unit)
    (fun (c : Nat) (_ : Nat) (_ : Bool) =>
      (Except.ok (if c = 2 then 1 else 5) : Except Unit Int))
    { kernels := [], picked_kernel := none } [1, 2, 3]
    (fun c => if c = 2 then 1 else 5) rfl (by decide)
    (fun c _ => rfl)
  rw [h.2.1]
  decide

/-- Witness for C4 (amended) at a concrete fresh two-variant group. -/
theorem define_kernel_glue_two_closures_witness :
    ∃ gb : GlueBlock,
      (MultiKernelState.init.define_kernel [kEx1, kEx2]).1.header
        = MultiKernelState.init.header ++ [gb]
      ∧ (MultiKernelState.init.define_kernel [kEx1, kEx2]).2
          = Except.ok ("multi_kernel_" ++ kEx1.kernel_name)
      ∧ gb.closures
          = [ { kernel_index := 0
                run_args := get_kernel_argdefs kEx1
                run_numels := get_numel_argdefs kEx1 }
            , { kernel_index := 1
                run_args := get_kernel_argdefs kEx2
                run_numels := get_numel_argdefs kEx2 } ]
      ∧ gb.dispatched = [0, 1]
      ∧ gb.signature_args = get_all_kernel_argdefs [kEx1, kEx2]
      ∧ gb.signature_numels = get_numel_argdefs kEx1
      ∧ gb.closures.length = 2
      ∧ ([] = ([] : List Kernel) → gb.closures.length = [kEx1, kEx2].length)
      ∧ (get_numel_argdefs kEx2 = get_numel_argdefs kEx1 →
          ∀ cl ∈ gb.closures, cl.run_numels = gb.signature_numels) :=
  define_kernel_glue_two_closures MultiKernelState.init kEx1 kEx2 [] rfl
    (by simp [MultiKernelState.init])

/-- Witness for C5 (amended) at a concrete collision-free sequence. -/
theorem define_kernel_no_collision_of_distinct_first_names_witness :
    Except.error DefineErr.assertFail
      ∉ (define_kernel_seq MultiKernelState.init
          [[kEx1, kEx2], [kEx3, kEx2]]).2 :=
  define_kernel_no_collision_of_distinct_first_names
    [[kEx1, kEx2], [kEx3, kEx2]] (by decide)

/-- Witness for C8 at concrete group sizes 1, 0 and 2. -/
theorem group_size_precondition_witness :
    MultiKernelCall.init ([0, 1] : List Nat)
        = some { kernels := [0, 1], picked_kernel := none }
    ∧ MultiKernelCall.init ([0] : List Nat) = none
    ∧ MultiKernel.init MultiKernelState.init []
        = (MultiKernelState.init, Except.error InitErr.sizeAssert)
    ∧ ∃ st1 nm, MultiKernel.init MultiKernelState.init [kEx1, kEx2]
        = (st1, Except.ok ⟨[kEx1, kEx2], nm⟩) :=
  ⟨(group_size_precondition Nat [0, 1] MultiKernelState.init []).2.1
      (by decide),
   (group_size_precondition Nat [0] MultiKernelState.init []).1 (by decide),
   (group_size_precondition Nat [] MultiKernelState.init []).2.2.1
      (by decide),
   (group_size_precondition Nat [] MultiKernelState.init [kEx1, kEx2]).2.2.2.2
      (by decide)⟩

/-- Witness for C9 at a concrete failing candidate. -/
theorem benchmark_failure_propagates_state_unchanged_witness :
    ∃ e n,
      run_with_argless_kernels (K := Unit)
          (fun (c : Nat) (_ : Nat) (_ : Bool) =>
            if c = 2 then (Except.error () : Except Unit Int)
            else Except.ok 5)
          { kernels := [], picked_kernel := none } [1, 2, 3]
        = ({ kernels := [], picked_kernel := none }, n,
           Except.error (RunError.benchFail e))
      ∧ (run_with_argless_kernels (K := Unit)
          (fun (c : Nat) (_ : Nat) (_ : Bool) =>
            if c = 2 then (Except.error () : Except Unit Int)
            else Except.ok 5)
          { kernels := [], picked_kernel := none }
          [1, 2, 3]).1.picked_kernel = none :=
  benchmark_failure_propagates_state_unchanged _
    { kernels := [], picked_kernel := none } [1, 2, 3] rfl
    ⟨2, by decide, (), rfl⟩

/-- Witness for C10 at a concrete decided instance with a valid index. -/
theorem run_invokes_exactly_picked_index_witness :
    ∃ i, (run_with_argless_kernels (K := Unit) (E := Unit)
        (fun (_ : Nat) (_ : Nat) (_ : Bool) => Except.ok (7 : Int))
        { kernels := [], picked_kernel := some 2 }
        [5, 6, 9]).1.picked_kernel = some i
      ∧ i < [5, 6, 9].length
      ∧ ∃ c, [5, 6, 9].get? i = some c
        ∧ (run_with_argless_kernels (K := Unit) (E := Unit)
            (fun (_ : Nat) (_ : Nat) (_ : Bool) => Except.ok (7 : Int))
            { kernels := [], picked_kernel := some 2 }
            [5, 6, 9]).2.2 = Except.ok c :=
  run_invokes_exactly_picked_index _ _ [5, 6, 9] (fun _ => 7) (by decide)
    (fun _ _ => rfl)
    (by
      intro i hi
      injection hi with h
      rw [← h]
      decide)
